import Mathlib

/-!
Verification of the smart-inverter dashboard core against its specification.

Shallow embedding of the relevant parts of inverter_api.py and
daily_analyzer.py.  Machine floats are modelled by exact rationals,
wall-clock and monotonic timestamps by integers and rationals, and the
SQLite tables by Lean lists.  Each embedded definition names, in its doc
comment, the source function it translates.
-/

namespace Inverter

/-! Battery energy counter (inverter_api.py, update_battery_counter and
friends).  The battery_counters row is modelled by the three energy
accumulators the claims speak about; the remaining columns
(counter_type, start_battery_v, created_at) are constants or metadata
never read by the verified operations. -/

/-- Default polling interval in seconds (POLL_S, config default 5). -/
def POLL_S : ℚ := 5

/-- The open battery_counters row: the three energy accumulators. -/
structure BatteryCounter where
  total_batt_in_Wh : ℚ
  total_batt_out_Wh : ℚ
  total_batt_net_Wh : ℚ
deriving DecidableEq, Repr

/-- A freshly created, zeroed counter row (the table defaults are 0.0). -/
def freshCounter : BatteryCounter := ⟨0, 0, 0⟩

/-- update_battery_counter (inverter_api.py lines 719-748).  Both SQL
branches read the old column values on the right-hand side, exactly as
SQLite evaluates an UPDATE. -/
def update_battery_counter (c : BatteryCounter) (battery_w battery_v : Option ℚ) :
    BatteryCounter :=
  match battery_w, battery_v with
  | some w, some _ =>
    let energy_wh := w * POLL_S / 3600
    if 0 < w then
      { c with
        total_batt_in_Wh := c.total_batt_in_Wh + energy_wh,
        total_batt_net_Wh := c.total_batt_in_Wh + energy_wh - c.total_batt_out_Wh }
    else if w < 0 then
      let e := |energy_wh|
      { c with
        total_batt_out_Wh := c.total_batt_out_Wh + e,
        total_batt_net_Wh := c.total_batt_in_Wh - (c.total_batt_out_Wh + e) }
    else c
  | _, _ => c

/-- A sequence of acquisition-cycle updates applied to a counter. -/
def runUpdates (c : BatteryCounter) (updates : List (Option ℚ × Option ℚ)) :
    BatteryCounter :=
  updates.foldl (fun acc u => update_battery_counter acc u.1 u.2) c

lemma update_preserves_net (c : BatteryCounter)
    (h : c.total_batt_net_Wh = c.total_batt_in_Wh - c.total_batt_out_Wh)
    (w v : Option ℚ) :
    (update_battery_counter c w v).total_batt_net_Wh =
      (update_battery_counter c w v).total_batt_in_Wh -
        (update_battery_counter c w v).total_batt_out_Wh := by
  rcases w with _ | w <;> rcases v with _ | v
  · exact h
  · exact h
  · exact h
  · simp only [update_battery_counter]
    split_ifs <;> simp [h]

lemma runUpdates_preserves_net (updates : List (Option ℚ × Option ℚ)) :
    ∀ c : BatteryCounter,
      c.total_batt_net_Wh = c.total_batt_in_Wh - c.total_batt_out_Wh →
      (runUpdates c updates).total_batt_net_Wh =
        (runUpdates c updates).total_batt_in_Wh -
          (runUpdates c updates).total_batt_out_Wh := by
  induction updates with
  | nil => intro c h; simpa [runUpdates] using h
  | cons u rest ih =>
    intro c h
    simpa [runUpdates] using ih _ (update_preserves_net c h u.1 u.2)

/-- C1: for every update sequence from a zeroed counter the net equals
in minus out; a charging update adds w * POLL_S / 3600 to the charge
accumulator, a discharging update adds the absolute energy to the
discharge accumulator, and the net is recomputed on every such update. -/
theorem battery_counter_invariant :
    (∀ updates : List (Option ℚ × Option ℚ),
      (runUpdates freshCounter updates).total_batt_net_Wh =
        (runUpdates freshCounter updates).total_batt_in_Wh -
          (runUpdates freshCounter updates).total_batt_out_Wh) ∧
    (∀ (c : BatteryCounter) (w v : ℚ), 0 < w →
      (update_battery_counter c (some w) (some v)).total_batt_in_Wh =
          c.total_batt_in_Wh + w * POLL_S / 3600 ∧
      (update_battery_counter c (some w) (some v)).total_batt_out_Wh =
          c.total_batt_out_Wh) ∧
    (∀ (c : BatteryCounter) (w v : ℚ), w < 0 →
      (update_battery_counter c (some w) (some v)).total_batt_out_Wh =
          c.total_batt_out_Wh + |w * POLL_S / 3600| ∧
      (update_battery_counter c (some w) (some v)).total_batt_in_Wh =
          c.total_batt_in_Wh) ∧
    (∀ (c : BatteryCounter) (w v : ℚ), w ≠ 0 →
      (update_battery_counter c (some w) (some v)).total_batt_net_Wh =
        (update_battery_counter c (some w) (some v)).total_batt_in_Wh -
          (update_battery_counter c (some w) (some v)).total_batt_out_Wh) := by
  refine ⟨fun updates => runUpdates_preserves_net updates freshCounter (by simp [freshCounter]), ?_, ?_, ?_⟩
  · intro c w v hw
    refine ⟨?_, ?_⟩ <;> simp [update_battery_counter, hw]
  · intro c w v hw
    have hw1 : ¬ 0 < w := not_lt.mpr hw.le
    refine ⟨?_, ?_⟩ <;> simp [update_battery_counter, hw, hw1]
  · intro c w v hw
    rcases lt_or_gt_of_ne hw with h | h
    · simp [update_battery_counter, h, not_lt.mpr h.le, hw]
    · simp [update_battery_counter, h]

/-- Witness for battery_counter_invariant at concrete inputs. -/
theorem battery_counter_invariant_witness :
    ((runUpdates freshCounter [(some 720, some 50), (some (-360), some 48)]).total_batt_net_Wh =
      (runUpdates freshCounter [(some 720, some 50), (some (-360), some 48)]).total_batt_in_Wh -
        (runUpdates freshCounter [(some 720, some 50), (some (-360), some 48)]).total_batt_out_Wh) ∧
    (update_battery_counter freshCounter (some 720) (some 50)).total_batt_in_Wh =
        freshCounter.total_batt_in_Wh + 720 * POLL_S / 3600 ∧
    (update_battery_counter freshCounter (some (-360)) (some 48)).total_batt_out_Wh =
        freshCounter.total_batt_out_Wh + |(-360 : ℚ) * POLL_S / 3600| ∧
    (update_battery_counter freshCounter (some (-360)) (some 48)).total_batt_net_Wh =
      (update_battery_counter freshCounter (some (-360)) (some 48)).total_batt_in_Wh -
        (update_battery_counter freshCounter (some (-360)) (some 48)).total_batt_out_Wh := by
  obtain ⟨h1, h2, h3, h4⟩ := battery_counter_invariant
  exact ⟨h1 _, (h2 freshCounter 720 50 (by norm_num)).1,
    (h3 freshCounter (-360) 48 (by norm_num)).1,
    h4 freshCounter (-360) 48 (by norm_num)⟩

/-! ADS1115 sign correction (inverter_api.py, i2c_read_all, lines 185-192).
The raw 16-bit conversion value is assembled from two bytes and then
corrected: values above 32767 have 65535 subtracted. -/

/-- The sign-correction step of i2c_read_all:
raw is in 0..65535; if raw is greater than 32767 the code subtracts 65535. -/
def i2c_sign_correct (raw : ℤ) : ℤ :=
  if 32767 < raw then raw - 65535 else raw

/-- Standard 16-bit two's-complement interpretation, subtracting 65536. -/
def twosComplement16 (raw : ℤ) : ℤ :=
  if 32767 < raw then raw - 65536 else raw

/-- C10: the sign correction maps r to r when r is at most 32767 and to
r - 65535 otherwise; raw 32768 gives -32767, raw 65535 gives 0, and for
every negative reading the result exceeds standard two's complement by
exactly one. -/
theorem i2c_sign_correct_spec :
    (∀ r : ℤ, 0 ≤ r → r ≤ 32767 → i2c_sign_correct r = r) ∧
    (∀ r : ℤ, 32768 ≤ r → r ≤ 65535 → i2c_sign_correct r = r - 65535 ∧
      i2c_sign_correct r = twosComplement16 r + 1) ∧
    i2c_sign_correct 32768 = -32767 ∧
    i2c_sign_correct 65535 = 0 := by
  refine ⟨?_, ?_, by decide, by decide⟩
  · intro r _ hr
    simp [i2c_sign_correct, not_lt.mpr hr]
  · intro r hr _
    have h : (32767 : ℤ) < r := by omega
    constructor
    · simp [i2c_sign_correct, h]
    · simp [i2c_sign_correct, twosComplement16, h]
      ring

/-- Witness for i2c_sign_correct_spec at concrete raw values. -/
theorem i2c_sign_correct_spec_witness :
    i2c_sign_correct 100 = 100 ∧
    (i2c_sign_correct 40000 = 40000 - 65535 ∧
      i2c_sign_correct 40000 = twosComplement16 40000 + 1) := by
  obtain ⟨h1, h2, _, _⟩ := i2c_sign_correct_spec
  exact ⟨h1 100 (by norm_num) (by norm_num), h2 40000 (by norm_num) (by norm_num)⟩

/-! Time-series sample store (inverter_api.py, db_init lines 440-456 and
the INSERT OR IGNORE in poll_loop lines 1145-1161).  The samples table
has a unique index on timestamp.  We model a row by its timestamp
(seconds) and the four power channels the archival queries read; the
remaining REAL columns are carried the same way and are never consulted
by the verified operations, so they are omitted from the record. -/

/-- A samples row: timestamp (unique key, seconds) and the nullable
power channels used by archival. -/
structure Sample where
  timestamp : ℕ
  pv_w : Option ℚ
  battery_w : Option ℚ
  load_w : Option ℚ
  grid_w : Option ℚ
deriving DecidableEq, Repr

/-- INSERT OR IGNORE INTO samples: if a row with the same timestamp
exists the statement is a no-op, otherwise the row is appended. -/
def insertSample (store : List Sample) (s : Sample) : List Sample :=
  if store.any (fun r => r.timestamp = s.timestamp) then store
  else store ++ [s]

/-- C3: inserting a second sample with the same timestamp is a no-op:
the store (hence its row count and every stored value) is unchanged. -/
theorem insertSample_duplicate_noop (store : List Sample) (s₁ s₂ : Sample)
    (h : s₂.timestamp = s₁.timestamp) :
    insertSample (insertSample store s₁) s₂ = insertSample store s₁ ∧
    (insertSample (insertSample store s₁) s₂).length =
      (insertSample store s₁).length := by
  have hmem : (insertSample store s₁).any (fun r => r.timestamp = s₂.timestamp) = true := by
    unfold insertSample
    split_ifs with hdup
    · rw [List.any_eq_true] at hdup ⊢
      obtain ⟨r, hr, hts⟩ := hdup
      exact ⟨r, hr, by simp_all⟩
    · rw [List.any_eq_true]
      exact ⟨s₁, by simp, by simp [h]⟩
  have key : insertSample (insertSample store s₁) s₂ = insertSample store s₁ := by
    conv_lhs => rw [insertSample]
    simp [hmem]
  exact ⟨key, by rw [key]⟩

/-- Witness for insertSample_duplicate_noop at a concrete store. -/
theorem insertSample_duplicate_noop_witness :
    insertSample (insertSample [] ⟨10, some 1, some 2, some 3, some 4⟩)
        ⟨10, some 9, none, none, none⟩ =
      insertSample [] ⟨10, some 1, some 2, some 3, some 4⟩ :=
  (insertSample_duplicate_noop [] ⟨10, some 1, some 2, some 3, some 4⟩
    ⟨10, some 9, none, none, none⟩ rfl).1

/-! Relay controller (inverter_api.py, relay_apply lines 927-945,
relay_setup lines 947-968, relay_auto_step lines 972-1003).  Monotonic
time is modelled by a rational; the GPIO write and readback are pure
observations that do not feed back into the tracked state. -/

/-- Relay configuration (CONF section relay). -/
structure RelayConfig where
  enabled : Bool
  active_high : Bool
  on_v : ℚ
  off_v : ℚ
  min_toggle_sec : ℤ
deriving DecidableEq, Repr

/-- min_gap = max(0, int(cfg.get min_toggle_sec)). -/
def RelayConfig.minGap (cfg : RelayConfig) : ℤ := max 0 cfg.min_toggle_sec

/-- Process-lifetime relay state: RELAY_STATE (None = unknown) and
RELAY_LAST_TOGGLE. -/
structure RelayState where
  relay_state : Option Bool
  last_toggle : ℚ
deriving DecidableEq, Repr

/-- Module-load values: RELAY_STATE = None, RELAY_LAST_TOGGLE = 0.0. -/
def initialRelayState : RelayState := ⟨none, 0⟩

/-- relay_apply: computes the physical level from active_high, then sets
the tracked state and the toggle timestamp.  Returns the new state and
the level written to the line. -/
def relay_apply (cfg : RelayConfig) (hw_on : Bool) (now : ℚ) :
    RelayState × Bool :=
  let level_high := if cfg.active_high then hw_on else !hw_on
  ({ relay_state := some hw_on, last_toggle := now }, level_high)

/-- The desired relay state computed by relay_auto_step from the
current state and the battery voltage; none encodes the early return
taken from the unknown state inside the hysteresis band. -/
def relay_want (cfg : RelayConfig) (cur : Option Bool) (v : ℚ) :
    Option (Option Bool) :=
  match cur with
  | none =>
    if v ≤ cfg.on_v then some (some true)
    else if cfg.off_v ≤ v then some (some false)
    else none
  | some b =>
    some (if b = false ∧ v ≤ cfg.on_v then some true
          else if b = true ∧ cfg.off_v ≤ v then some false
          else some b)

/-- One hysteresis evaluation, relay_auto_step.  Returns the new state
and, when a transition was applied, the time at which it was applied. -/
def relay_auto_step (cfg : RelayConfig) (st : RelayState) (now : ℚ)
    (batt_v : Option ℚ) : RelayState × Option ℚ :=
  if cfg.enabled = false then (st, none)
  else
    match batt_v with
    | none => (st, none)
    | some v =>
      match relay_want cfg st.relay_state v with
      | none => (st, none)
      | some want =>
        if want ≠ st.relay_state ∧ (cfg.minGap : ℚ) ≤ now - st.last_toggle then
          ((relay_apply cfg (want.getD false) now).1, some now)
        else (st, none)

/-- Feed a voltage trajectory through relay_auto_step, collecting the
times of the applied transitions. -/
def relayRun (cfg : RelayConfig) (st : RelayState) :
    List (ℚ × Option ℚ) → RelayState × List ℚ
  | [] => (st, [])
  | (t, v) :: rest =>
    let step := relay_auto_step cfg st t v
    let tail := relayRun cfg step.1 rest
    (tail.1, step.2.toList ++ tail.2)

lemma relay_auto_step_applied (cfg : RelayConfig) (st st' : RelayState)
    (now : ℚ) (v : Option ℚ) (t : ℚ)
    (h : relay_auto_step cfg st now v = (st', some t)) :
    t = now ∧ (cfg.minGap : ℚ) ≤ now - st.last_toggle ∧
      st'.last_toggle = now := by
  unfold relay_auto_step at h
  split at h
  · simp at h
  · split at h
    · simp at h
    · split at h
      · simp at h
      · split at h
        · rename_i hcond
          simp only [Prod.mk.injEq, Option.some.injEq] at h
          refine ⟨h.2.symm, hcond.2, ?_⟩
          rw [← h.1]
          simp [relay_apply]
        · simp at h

lemma relay_auto_step_skipped (cfg : RelayConfig) (st st' : RelayState)
    (now : ℚ) (v : Option ℚ)
    (h : relay_auto_step cfg st now v = (st', none)) :
    st' = st := by
  unfold relay_auto_step at h
  split at h
  · simp_all
  · split at h
    · simp_all
    · split at h
      · simp_all
      · split at h
        · simp at h
        · simp_all

/-- Applied-transition times form a chain separated by at least minGap,
and the first applied time is at least minGap after the initial
last_toggle. -/
lemma relayRun_chain (cfg : RelayConfig) :
    ∀ (inputs : List (ℚ × Option ℚ)) (st : RelayState),
      List.Chain' (fun a b => a + (cfg.minGap : ℚ) ≤ b)
        (relayRun cfg st inputs).2 ∧
      ∀ t, (relayRun cfg st inputs).2.head? = some t →
        st.last_toggle + (cfg.minGap : ℚ) ≤ t := by
  intro inputs
  induction inputs with
  | nil => intro st; simp [relayRun]
  | cons p rest ih =>
    intro st
    obtain ⟨t0, v0⟩ := p
    have hrun : (relayRun cfg st ((t0, v0) :: rest)).1 =
        (relayRun cfg (relay_auto_step cfg st t0 v0).1 rest).1 ∧
        (relayRun cfg st ((t0, v0) :: rest)).2 =
        (relay_auto_step cfg st t0 v0).2.toList ++
          (relayRun cfg (relay_auto_step cfg st t0 v0).1 rest).2 := by
      constructor <;> rfl
    rcases hstep : relay_auto_step cfg st t0 v0 with ⟨st', ap⟩
    rcases ap with _ | t
    · -- no transition applied at this step
      have hst : st' = st := relay_auto_step_skipped cfg st st' t0 v0 hstep
      have hrest := ih st'
      rw [hst] at hrest
      constructor
      · rw [hrun.2, hstep]
        simpa [hst] using hrest.1
      · intro u hu
        rw [hrun.2, hstep] at hu
        simp only [Option.toList_none, List.nil_append] at hu
        rw [hst] at hu
        exact hrest.2 u hu
    · -- a transition was applied at time t = t0
      obtain ⟨ht, hgap, hlast⟩ :=
        relay_auto_step_applied cfg st st' t0 v0 t hstep
      have hrest := ih st'
      have hhead : ∀ u, (relayRun cfg st' rest).2.head? = some u →
          t0 + (cfg.minGap : ℚ) ≤ u := by
        intro u hu
        have := hrest.2 u hu
        rwa [hlast] at this
      constructor
      · rw [hrun.2, hstep, ht]
        simp only [Option.toList_some, List.singleton_append]
        rcases hh : (relayRun cfg st' rest).2 with _ | ⟨u, us⟩
        · simp
        · refine List.Chain'.cons ?_ ?_
          · exact hhead u (by rw [hh]; rfl)
          · have := hrest.1; rwa [hh] at this
      · intro u hu
        rw [hrun.2, hstep, ht] at hu
        simp only [Option.toList_some, List.singleton_append, List.head?_cons,
          Option.some.injEq] at hu
        rw [← hu]
        linarith [hgap]

/-- C2: for every relay configuration, initial state and voltage
trajectory, any two transitions applied by relay_auto_step are at
least min_toggle_sec apart (the later time is at least the earlier
plus min_toggle_sec). -/
theorem relay_min_toggle_separation (cfg : RelayConfig) (st : RelayState)
    (inputs : List (ℚ × Option ℚ)) (hmin : 0 ≤ cfg.min_toggle_sec) :
    List.Pairwise (fun a b => a + (cfg.min_toggle_sec : ℚ) ≤ b)
      (relayRun cfg st inputs).2 := by
  have hgap : cfg.minGap = cfg.min_toggle_sec := max_eq_right hmin
  have hchain := (relayRun_chain cfg inputs st).1
  rw [hgap] at hchain
  haveI : IsTrans ℚ (fun a b : ℚ => a + (cfg.min_toggle_sec : ℚ) ≤ b) := by
    constructor
    intro a b c hab hbc
    have : (0 : ℚ) ≤ (cfg.min_toggle_sec : ℚ) := by exact_mod_cast hmin
    simp only at hab hbc ⊢
    linarith
  exact List.chain'_iff_pairwise.mp hchain

/-- Witness for relay_min_toggle_separation: an adversarial trajectory
oscillating around the band, with two applied transitions. -/
theorem relay_min_toggle_separation_witness :
    List.Pairwise
      (fun a b => a + ((5 : ℤ) : ℚ) ≤ b)
      (relayRun ⟨true, true, 47.5, 49, 5⟩ initialRelayState
        [(0, some 47), (1, some 50), (3, some 47), (6, some 50), (9, some 47)]).2 :=
  relay_min_toggle_separation ⟨true, true, 47.5, 49, 5⟩ initialRelayState
    [(0, some 47), (1, some 50), (3, some 47), (6, some 50), (9, some 47)]
    (by norm_num)

/-- The GPIO backend selected at import time (None when neither driver
library is importable). -/
inductive GpioBackend
  | rpi
  | lgpio
deriving DecidableEq, Repr

/-- relay_setup: when a GPIO backend is present and the relay mode is
gpio, configures the pin and forces the tracked state to OFF; otherwise
it prints a skip message and returns, leaving the state untouched.
mode is the already-lowercased relay mode string. -/
def relay_setup (backend : Option GpioBackend) (mode : String)
    (st : RelayState) (now : ℚ) : RelayState :=
  if backend = none ∨ mode ≠ "gpio" then st
  else { relay_state := some false, last_toggle := now }

/-- C9 counterexample: with no GPIO backend available, relay_setup at
process start leaves the tracked state unknown, not OFF. -/
theorem relay_setup_no_backend_not_off :
    (relay_setup none "gpio" initialRelayState 0).relay_state ≠ some false := by
  simp [relay_setup, initialRelayState]

/-- C9 amended: relay_setup forces the tracked state to OFF exactly
when a GPIO backend is available and the relay mode is gpio; otherwise
it is skipped and the state (unknown at process start) is unchanged. -/
theorem relay_setup_spec (backend : Option GpioBackend) (mode : String)
    (st : RelayState) (now : ℚ) :
    (backend ≠ none → mode = "gpio" →
      (relay_setup backend mode st now).relay_state = some false) ∧
    (backend = none ∨ mode ≠ "gpio" → relay_setup backend mode st now = st) := by
  constructor
  · intro hb hm
    simp [relay_setup, hb, hm]
  · intro h
    simp [relay_setup, h]

/-- Witness for relay_setup_spec at concrete inputs. -/
theorem relay_setup_spec_witness :
    (relay_setup (some GpioBackend.lgpio) "gpio" initialRelayState 2).relay_state
        = some false ∧
    relay_setup none "gpio" initialRelayState 2 = initialRelayState :=
  ⟨(relay_setup_spec (some GpioBackend.lgpio) "gpio" initialRelayState 2).1
      (by simp) rfl,
   (relay_setup_spec none "gpio" initialRelayState 2).2 (Or.inl rfl)⟩

/-! Battery-counter reset (inverter_api.py, reset_battery_counter
lines 696-717 and check_battery_reset_condition lines 750-787).
Wall-clock timestamps are modelled by integers (seconds).  A
battery_counters row is modelled by its start_timestamp and
reset_reason; the other columns (zeroed energy totals, counter_type,
start_battery_v, created_at) are constants at creation and are not read
by the reset logic. -/

/-- A battery_counters row as seen by the reset logic:
start_timestamp and the nullable reset_reason (null = open). -/
structure CounterRow where
  start_timestamp : ℤ
  reset_reason : Option String
deriving DecidableEq, Repr

/-- The start_timestamp of the most recent counter row, as selected by
ORDER BY start_timestamp DESC LIMIT 1. -/
def latestStart (db : List CounterRow) : Option ℤ :=
  match db.map (fun r => r.start_timestamp) with
  | [] => none
  | x :: xs => some (xs.foldl max x)

/-- reset_battery_counter: closes every open row (sets reset_reason)
and inserts a fresh open row with start_timestamp = now. -/
def reset_battery_counter (reason : String) (now : ℤ)
    (db : List CounterRow) : List CounterRow :=
  (db.map (fun r => if r.reset_reason = none
      then { r with reset_reason := some reason } else r)) ++
    [⟨now, none⟩]

/-- check_battery_reset_condition: on a discharging sample at or below
the reset threshold, and unless the most recent counter started less
than 3600 seconds ago, performs an automatic reset.  Returns whether a
reset fired together with the resulting table.  The reason string the
code builds from the threshold and observed voltage is abbreviated to a
fixed tag, which the logic never reads back. -/
def check_battery_reset_condition (reset_thr : ℚ) (now : ℤ)
    (db : List CounterRow) (battery_v battery_w : Option ℚ) :
    Bool × List CounterRow :=
  match battery_v, battery_w with
  | some v, some w =>
    if w < 0 ∧ v ≤ reset_thr then
      match latestStart db with
      | some s =>
        if now - s < 3600 then (false, db)
        else (true, reset_battery_counter "battery_discharge_auto" now db)
      | none => (true, reset_battery_counter "battery_discharge_auto" now db)
    else (false, db)
  | _, _ => (false, db)

/-- An event observed by the battery-counter subsystem: an automatic
reset check during a poll cycle, or a manual reset request. -/
inductive BatteryEvent
  | auto (now : ℤ) (battery_v battery_w : Option ℚ)
  | manual (now : ℤ) (reason : String)

/-- Run a sequence of events against the counter table, collecting the
times at which automatic resets fired. -/
def runBatteryEvents (reset_thr : ℚ) (db : List CounterRow) :
    List BatteryEvent → List CounterRow × List ℤ
  | [] => (db, [])
  | .auto t v w :: rest =>
    match check_battery_reset_condition reset_thr t db v w with
    | (true, db') =>
      let tail := runBatteryEvents reset_thr db' rest
      (tail.1, t :: tail.2)
    | (false, db') => runBatteryEvents reset_thr db' rest
  | .manual t r :: rest =>
    runBatteryEvents reset_thr (reset_battery_counter r t db) rest

lemma le_foldl_max_of_le (l : List ℤ) (a b : ℤ) (h : a ≤ b) :
    a ≤ l.foldl max b := by
  induction l generalizing b with
  | nil => simpa using h
  | cons y ys ihy => exact ihy (max b y) (le_trans h (le_max_left b y))

lemma le_foldl_max_of_mem (l : List ℤ) (b a : ℤ) (h : a ∈ l) :
    a ≤ l.foldl max b := by
  induction l generalizing b with
  | nil => simp at h
  | cons y ys ihy =>
    rcases List.mem_cons.mp h with h | h
    · exact le_foldl_max_of_le ys a (max b y) (h ▸ le_max_right b y)
    · exact ihy (max b y) h

lemma mem_le_latestStart (db : List CounterRow) (r : CounterRow)
    (hr : r ∈ db) :
    ∃ s, latestStart db = some s ∧ r.start_timestamp ≤ s := by
  rcases db with _ | ⟨x, xs⟩
  · simp at hr
  · refine ⟨(xs.map (fun r => r.start_timestamp)).foldl max x.start_timestamp,
      by simp [latestStart], ?_⟩
    rcases List.mem_cons.mp hr with h | h
    · exact h ▸ le_foldl_max_of_le _ _ _ le_rfl
    · exact le_foldl_max_of_mem _ _ _ (List.mem_map_of_mem _ h)

lemma reset_mem_start (reason : String) (now : ℤ) (db : List CounterRow) :
    ∃ r ∈ reset_battery_counter reason now db, r.start_timestamp = now := by
  exact ⟨⟨now, none⟩, by simp [reset_battery_counter], rfl⟩

lemma reset_preserves_start (reason : String) (now : ℤ)
    (db : List CounterRow) (t : ℤ)
    (h : ∃ r ∈ db, r.start_timestamp = t) :
    ∃ r ∈ reset_battery_counter reason now db, r.start_timestamp = t := by
  obtain ⟨r, hr, hrt⟩ := h
  by_cases hro : r.reset_reason = none
  · exact ⟨{ r with reset_reason := some reason },
      by
        unfold reset_battery_counter
        refine List.mem_append_left _ ?_
        have : (fun r => if r.reset_reason = none
            then { r with reset_reason := some reason } else r) r =
            { r with reset_reason := some reason } := by simp [hro]
        exact this ▸ List.mem_map_of_mem _ hr, hrt⟩
  · exact ⟨r,
      by
        unfold reset_battery_counter
        refine List.mem_append_left _ ?_
        have : (fun r => if r.reset_reason = none
            then { r with reset_reason := some reason } else r) r = r := by
          simp [hro]
        exact this ▸ List.mem_map_of_mem _ hr, hrt⟩

lemma check_reduce (reset_thr : ℚ) (now : ℤ) (db : List CounterRow)
    (vv ww : ℚ) :
    check_battery_reset_condition reset_thr now db (some vv) (some ww) =
      if ww < 0 ∧ vv ≤ reset_thr then
        match latestStart db with
        | some s =>
          if now - s < 3600 then (false, db)
          else (true, reset_battery_counter "battery_discharge_auto" now db)
        | none => (true, reset_battery_counter "battery_discharge_auto" now db)
      else (false, db) := rfl

lemma check_fired (reset_thr : ℚ) (now : ℤ) (db db' : List CounterRow)
    (v w : Option ℚ)
    (h : check_battery_reset_condition reset_thr now db v w = (true, db')) :
    db' = reset_battery_counter "battery_discharge_auto" now db ∧
    ∀ t0, (∃ r ∈ db, r.start_timestamp = t0) → t0 + 3600 ≤ now := by
  rcases v with _ | vv
  · exact absurd (congrArg Prod.fst h) Bool.false_ne_true
  rcases w with _ | ww
  · exact absurd (congrArg Prod.fst h) Bool.false_ne_true
  rw [check_reduce] at h
  split_ifs at h with hcond
  · rcases hls : latestStart db with _ | s <;> rw [hls] at h <;> dsimp only at h
    · simp only [Prod.mk.injEq, true_and] at h
      refine ⟨h.symm, ?_⟩
      intro t0 ht0
      obtain ⟨r, hr, _⟩ := ht0
      obtain ⟨s', hs', _⟩ := mem_le_latestStart db r hr
      rw [hls] at hs'
      exact absurd hs' (by simp)
    · split_ifs at h with hdeb
      · simp at h
      · simp only [Prod.mk.injEq, true_and] at h
        refine ⟨h.symm, ?_⟩
        intro t0 ht0
        obtain ⟨r, hr, hrt⟩ := ht0
        obtain ⟨s', hs', hle⟩ := mem_le_latestStart db r hr
        rw [hls] at hs'
        have hss : s = s' := by injection hs'
        omega
  · simp at h

lemma check_not_fired (reset_thr : ℚ) (now : ℤ) (db db' : List CounterRow)
    (v w : Option ℚ)
    (h : check_battery_reset_condition reset_thr now db v w = (false, db')) :
    db' = db := by
  rcases v with _ | vv
  · have : db = db' := congrArg Prod.snd h
    exact this.symm
  rcases w with _ | ww
  · have : db = db' := congrArg Prod.snd h
    exact this.symm
  rw [check_reduce] at h
  split_ifs at h with hcond
  · rcases hls : latestStart db with _ | s <;> rw [hls] at h <;> dsimp only at h
    · simp at h
    · split_ifs at h with hdeb
      · simpa using h.symm
      · simp at h
  · simpa using h.symm

/-- Automatic reset times form a chain separated by at least one hour,
and the first one is at least one hour after every start timestamp
present in the initial table. -/
lemma runBatteryEvents_chain (reset_thr : ℚ) :
    ∀ (events : List BatteryEvent) (db : List CounterRow),
      List.Chain' (fun a b => a + 3600 ≤ b)
        (runBatteryEvents reset_thr db events).2 ∧
      ∀ t0, (∃ r ∈ db, r.start_timestamp = t0) →
        ∀ t, (runBatteryEvents reset_thr db events).2.head? = some t →
          t0 + 3600 ≤ t := by
  intro events
  induction events with
  | nil => intro db; simp [runBatteryEvents]
  | cons e rest ih =>
    intro db
    rcases e with ⟨t, v, w⟩ | ⟨t, r⟩
    · -- automatic reset check
      rcases hstep : check_battery_reset_condition reset_thr t db v w
        with ⟨fired, db'⟩
      rcases fired with _ | _
      · -- not fired: table unchanged
        have hrun : runBatteryEvents reset_thr db (.auto t v w :: rest) =
            runBatteryEvents reset_thr db' rest := by
          show (match check_battery_reset_condition reset_thr t db v w with
            | (true, db') =>
              let tail := runBatteryEvents reset_thr db' rest
              (tail.1, t :: tail.2)
            | (false, db') => runBatteryEvents reset_thr db' rest) =
            runBatteryEvents reset_thr db' rest
          rw [hstep]
        have hdb : db' = db := check_not_fired reset_thr t db db' v w hstep
        have hrest := ih db'
        rw [hdb] at hrest
        constructor
        · rw [hrun, hdb]; exact hrest.1
        · intro t0 ht0 u hu
          rw [hrun, hdb] at hu
          exact hrest.2 t0 ht0 u hu
      · -- fired at time t
        have hrun : (runBatteryEvents reset_thr db (.auto t v w :: rest)).2 =
            t :: (runBatteryEvents reset_thr db' rest).2 := by
          show (match check_battery_reset_condition reset_thr t db v w with
            | (true, db') =>
              let tail := runBatteryEvents reset_thr db' rest
              (tail.1, t :: tail.2)
            | (false, db') => runBatteryEvents reset_thr db' rest).2 =
            t :: (runBatteryEvents reset_thr db' rest).2
          rw [hstep]
        obtain ⟨hdb', hsep⟩ := check_fired reset_thr t db db' v w hstep
        have hrest := ih db'
        have hmem : ∃ r ∈ db', r.start_timestamp = t := by
          rw [hdb']; exact reset_mem_start _ t db
        have hhead : ∀ u, (runBatteryEvents reset_thr db' rest).2.head? = some u →
            t + 3600 ≤ u := fun u hu => hrest.2 t hmem u hu
        constructor
        · rw [hrun]
          rcases hh : (runBatteryEvents reset_thr db' rest).2 with _ | ⟨u, us⟩
          · simp
          · refine List.Chain'.cons (hhead u (by rw [hh]; rfl)) ?_
            have := hrest.1; rwa [hh] at this
        · intro t0 ht0 u hu
          rw [hrun] at hu
          simp only [List.head?_cons, Option.some.injEq] at hu
          rw [← hu]
          exact hsep t0 ht0
    · -- manual reset: table rows are closed and a fresh row appended
      have hrest := ih (reset_battery_counter r t db)
      constructor
      · simpa [runBatteryEvents] using hrest.1
      · intro t0 ht0 u hu
        exact hrest.2 t0 (reset_preserves_start r t db t0 ht0) u
          (by simpa [runBatteryEvents] using hu)

lemma reset_open_rows (reason : String) (now : ℤ) (db : List CounterRow) :
    (reset_battery_counter reason now db).filter
        (fun c => c.reset_reason = none) = [⟨now, none⟩] := by
  unfold reset_battery_counter
  rw [List.filter_append]
  have hclosed : (db.map (fun r => if r.reset_reason = none
      then { r with reset_reason := some reason } else r)).filter
      (fun c => c.reset_reason = none) = [] := by
    induction db with
    | nil => rfl
    | cons r rs ihr =>
      by_cases hro : r.reset_reason = none <;>
        simp [List.filter_cons, hro, ihr]
  rw [hclosed]
  simp

/-- C7: the automatic reset fires exactly when the battery is
discharging, the voltage is at or below the threshold and the most
recent counter started at least 3600 seconds ago (and never with a
missing reading); over any event trajectory two automatic resets are
always at least one hour apart; a manual reset unconditionally closes
the open rows and opens a fresh one. -/
theorem battery_reset_debounce :
    (∀ (reset_thr vv ww : ℚ) (now s : ℤ) (db : List CounterRow),
      latestStart db = some s →
      ((check_battery_reset_condition reset_thr now db (some vv) (some ww)).1 = true ↔
        (ww < 0 ∧ vv ≤ reset_thr ∧ 3600 ≤ now - s))) ∧
    (∀ (reset_thr : ℚ) (now : ℤ) (db : List CounterRow) (x : Option ℚ),
      (check_battery_reset_condition reset_thr now db none x).1 = false ∧
      (check_battery_reset_condition reset_thr now db x none).1 = false) ∧
    (∀ (reset_thr : ℚ) (db : List CounterRow) (events : List BatteryEvent),
      List.Pairwise (fun a b => a + 3600 ≤ b)
        (runBatteryEvents reset_thr db events).2) ∧
    (∀ (reason : String) (now : ℤ) (db : List CounterRow),
      (reset_battery_counter reason now db).filter
          (fun c => c.reset_reason = none) = [⟨now, none⟩] ∧
      (reset_battery_counter reason now db).length = db.length + 1) := by
  refine ⟨?_, ?_, ?_, ?_⟩
  · intro reset_thr vv ww now s db hs
    rw [check_reduce, hs]
    dsimp only
    constructor
    · intro h
      split_ifs at h with hcond hdeb
      exact ⟨hcond.1, hcond.2, by omega⟩
    · intro h
      rw [if_pos ⟨h.1, h.2.1⟩, if_neg (by have := h.2.2; omega)]
  · intro reset_thr now db x
    constructor
    · rfl
    · rcases x with _ | x <;> rfl
  · intro reset_thr db events
    haveI : IsTrans ℤ (fun a b : ℤ => a + 3600 ≤ b) := by
      constructor
      intro a b c hab hbc
      simp only at hab hbc ⊢
      omega
    exact List.chain'_iff_pairwise.mp (runBatteryEvents_chain reset_thr events db).1
  · intro reason now db
    exact ⟨reset_open_rows reason now db, by simp [reset_battery_counter]⟩

/-- Witness for battery_reset_debounce at concrete inputs: with the
open counter one hour old, a discharging 45.9 V sample at the default
46 V threshold fires; two adversarial check events produce resets a
full hour apart; a manual reset right after an automatic one still
goes through. -/
theorem battery_reset_debounce_witness :
    ((check_battery_reset_condition 46 3600 [⟨0, none⟩]
        (some 45.9) (some (-50))).1 = true ↔
      ((-50 : ℚ) < 0 ∧ (45.9 : ℚ) ≤ 46 ∧ (3600 : ℤ) ≤ 3600 - 0)) ∧
    (check_battery_reset_condition 46 3600 [⟨0, none⟩] none (some (-50))).1
        = false ∧
    List.Pairwise (fun a b => a + 3600 ≤ b)
      (runBatteryEvents 46 [⟨0, none⟩]
        [.auto 3600 (some 45.9) (some (-50)),
         .auto 3700 (some 45.8) (some (-50)),
         .manual 3800 "operator",
         .auto 7300 (some 45.7) (some (-50))]).2 ∧
    (reset_battery_counter "operator" 3800
        [⟨0, some "battery_discharge_auto"⟩, ⟨3600, none⟩]).filter
        (fun c => c.reset_reason = none) = [⟨3800, none⟩] := by
  obtain ⟨h1, h2, h3, h4⟩ := battery_reset_debounce
  exact ⟨h1 46 45.9 (-50) 3600 0 [⟨0, none⟩] rfl,
    (h2 46 3600 [⟨0, none⟩] (some (-50))).1,
    h3 46 [⟨0, none⟩] _,
    (h4 "operator" 3800 [⟨0, some "battery_discharge_auto"⟩, ⟨3600, none⟩]).1⟩

/-! Archival compaction (inverter_api.py, _archive_compute_and_apply
lines 593-637, shared with db_archive_and_trim lines 502-536).  The SQL
groups samples older than the cutoff into minute buckets, averages each
power channel over the non-null values (SQL AVG skips NULLs), then
groups minutes into days, summing the minute averages and dividing by
60; the battery channel is split into its positive part and rectified
negative part, where a NULL battery_w contributes 0 through the CASE
expression.  Archive rows are upserted day-keyed (INSERT OR REPLACE)
and the archived source rows are deleted.  Timestamps are seconds, so
the minute bucket is ts / 60 and a minute belongs to day ts_min / 1440. -/

/-- SQL AVG over a column: the average of the non-null values, NULL if
none. -/
def avgOpt (vals : List (Option ℚ)) : Option ℚ :=
  let xs := vals.filterMap id
  if xs.isEmpty then none else some (xs.sum / (xs.length : ℚ))

/-- SQL SUM over a column: the sum of the non-null values, NULL if
none. -/
def sumOpt (vals : List (Option ℚ)) : Option ℚ :=
  let xs := vals.filterMap id
  if xs.isEmpty then none else some xs.sum

/-- One row of the minute-bucket subquery m. -/
structure MinuteRow where
  ts_min : ℕ
  pv_w : Option ℚ
  battery_w : Option ℚ
  load_w : Option ℚ
  grid_w : Option ℚ
deriving DecidableEq, Repr

/-- The minute-bucket aggregation subquery: one row per distinct minute
among the given samples, averaging each channel. -/
def minuteRows (samples : List Sample) : List MinuteRow :=
  ((samples.map (fun s => s.timestamp / 60)).dedup).map (fun m =>
    let grp := samples.filter (fun s => s.timestamp / 60 = m)
    { ts_min := m,
      pv_w := avgOpt (grp.map (fun s => s.pv_w)),
      battery_w := avgOpt (grp.map (fun s => s.battery_w)),
      load_w := avgOpt (grp.map (fun s => s.load_w)),
      grid_w := avgOpt (grp.map (fun s => s.grid_w)) })

/-- One archive row. -/
structure ArchiveRow where
  day : ℕ
  pv_Wh : Option ℚ
  load_Wh : Option ℚ
  grid_Wh : Option ℚ
  batt_in_Wh : Option ℚ
  batt_out_Wh : Option ℚ
deriving DecidableEq, Repr

/-- The CASE WHEN battery_w is compared with 0: a NULL comparison is
not true, so NULL contributes the ELSE value 0. -/
def battCase (pos : Bool) (b : Option ℚ) : ℚ :=
  match b with
  | some x =>
    if pos then (if 0 < x then x else 0) else (if x < 0 then -x else 0)
  | none => 0

/-- The day-grouping outer query: one archive row per distinct day,
summing minute averages and dividing by 60. -/
def dayRows (ms : List MinuteRow) : List ArchiveRow :=
  ((ms.map (fun r => r.ts_min / 1440)).dedup).map (fun d =>
    let grp := ms.filter (fun r => r.ts_min / 1440 = d)
    { day := d,
      pv_Wh := (sumOpt (grp.map (fun r => r.pv_w))).map (fun x => x / 60),
      load_Wh := (sumOpt (grp.map (fun r => r.load_w))).map (fun x => x / 60),
      grid_Wh := (sumOpt (grp.map (fun r => r.grid_w))).map (fun x => x / 60),
      batt_in_Wh := some ((grp.map (fun r => battCase true r.battery_w)).sum / 60),
      batt_out_Wh := some ((grp.map (fun r => battCase false r.battery_w)).sum / 60) })

/-- INSERT OR REPLACE INTO archive, keyed by day. -/
def upsertArchive (archive : List ArchiveRow) (r : ArchiveRow) :
    List ArchiveRow :=
  if archive.any (fun a => a.day = r.day) then
    archive.map (fun a => if a.day = r.day then r else a)
  else archive ++ [r]

/-- The relevant database state: live samples and the archive table. -/
structure DbState where
  samples : List Sample
  archive : List ArchiveRow
deriving DecidableEq, Repr

/-- The day summary computed for all samples strictly older than the
cutoff. -/
def archiveSummary (cutoff : ℕ) (st : DbState) : List ArchiveRow :=
  dayRows (minuteRows (st.samples.filter (fun s => s.timestamp < cutoff)))

/-- _archive_compute_and_apply with apply=True: computes the summary
rows; when there are any, upserts them into the archive and deletes the
source samples (the code guards both the upsert loop and the DELETE by
the summary being non-empty). -/
def archive_compute_and_apply (cutoff : ℕ) (st : DbState) : DbState :=
  let rows := archiveSummary cutoff st
  if rows.isEmpty then st
  else
    { archive := rows.foldl upsertArchive st.archive,
      samples := st.samples.filter (fun s => ¬ s.timestamp < cutoff) }

/-- How many sample rows a run of the archival deletes. -/
def archiveRowsDeleted (cutoff : ℕ) (st : DbState) : ℕ :=
  st.samples.length - (archive_compute_and_apply cutoff st).samples.length

/-- C4: archival is idempotent: a second run with the same cutoff and
no intervening inserts leaves the whole state (archive rows included)
unchanged and deletes zero additional sample rows. -/
theorem archive_and_trim_idempotent (cutoff : ℕ) (st : DbState) :
    archive_compute_and_apply cutoff (archive_compute_and_apply cutoff st) =
      archive_compute_and_apply cutoff st ∧
    archiveRowsDeleted cutoff (archive_compute_and_apply cutoff st) = 0 := by
  by_cases h : (archiveSummary cutoff st).isEmpty
  · -- nothing to archive: the first run is already the identity
    have hid : archive_compute_and_apply cutoff st = st := by
      unfold archive_compute_and_apply
      rw [if_pos h]
    refine ⟨?_, ?_⟩
    · rw [hid, hid]
    · unfold archiveRowsDeleted
      rw [hid, hid]
      simp
  · -- something was archived: afterwards no sample is older than the cutoff
    have hsamples : (archive_compute_and_apply cutoff st).samples =
        st.samples.filter (fun s => ¬ s.timestamp < cutoff) := by
      unfold archive_compute_and_apply
      rw [if_neg h]
    have hfilter : (archive_compute_and_apply cutoff st).samples.filter
        (fun s => s.timestamp < cutoff) = [] := by
      rw [hsamples]
      rw [List.filter_filter]
      apply List.filter_eq_nil_iff.mpr
      intro a _
      simp
    have hsum2 : archiveSummary cutoff (archive_compute_and_apply cutoff st) = [] := by
      unfold archiveSummary
      rw [hfilter]
      rfl
    have hsecond : archive_compute_and_apply cutoff
        (archive_compute_and_apply cutoff st) =
        archive_compute_and_apply cutoff st := by
      conv_lhs => rw [archive_compute_and_apply]
      simp only [hsum2, List.isEmpty_nil, if_true]
    refine ⟨hsecond, ?_⟩
    unfold archiveRowsDeleted
    rw [hsecond]
    simp

end Inverter

namespace DailyAnalyzer

/-! Daily analyzer (daily_analyzer.py).  A sample row, as read by the
analyzer, is modelled by its local hour (timestamp.hour) and the
nullable pv_w channel; the other channels and the full timestamp are
not consulted by the verified fragments. -/

/-- An analyzer-side sample: local hour of its timestamp and the
nullable PV power. -/
structure ASample where
  hour : ℕ
  pv_w : Option ℚ
deriving DecidableEq, Repr

/-- _calculate_energy_from_power for a given field: each sample whose
field value is not null contributes abs(power) * interval_minutes / 60
watt-hours; the total is converted to kWh. -/
def calculate_energy_from_power (get : ASample → Option ℚ)
    (samples : List ASample) (interval_minutes : ℚ) : ℚ :=
  (samples.foldl (fun acc s =>
    match get s with
    | some p => acc + |p| * (interval_minutes / 60)
    | none => acc) 0) / 1000

/-- The significant-production filter of _analyze_pv (lines 248-266):
pv_w truthy and above 100 W, and local hour between the sunrise bound 6
and the sunset bound 20, both bounds included by the chained
comparison 6 <= timestamp.hour <= 20. -/
def analyze_pv_significant (samples : List ASample) : List ASample :=
  samples.filter (fun s =>
    match s.pv_w with
    | some p => (!(p = 0) && decide (100 < p)) && (decide (6 ≤ s.hour) && decide (s.hour ≤ 20))
    | none => false)

/-- C6 counterexample: a 200 W PV sample at hour 20 is counted as
significant production by the code although 20 is outside the
half-open window of hours spanning 6 inclusive to 20 exclusive. -/
theorem pv_significant_hour20_counted :
    analyze_pv_significant [⟨20, some 200⟩] = [⟨20, some 200⟩] ∧
    ¬((6 : ℕ) ≤ 20 ∧ (20 : ℕ) < 20) := by
  constructor
  · rfl
  · decide

/-- C6 amended: a sample counts as significant production exactly when
its PV power exceeds 100 W and its local hour lies in the closed
interval from 6 to 20 (hour 20, i.e. timestamps up to 20:59:59,
included); all other samples are excluded from the significant list
from which the PV daily metrics are computed. -/
theorem pv_significant_characterization (samples : List ASample)
    (s : ASample) :
    s ∈ analyze_pv_significant samples ↔
      s ∈ samples ∧ ∃ p, s.pv_w = some p ∧ 100 < p ∧
        6 ≤ s.hour ∧ s.hour ≤ 20 := by
  unfold analyze_pv_significant
  rw [List.mem_filter]
  constructor
  · rintro ⟨hmem, hcond⟩
    refine ⟨hmem, ?_⟩
    rcases hp : s.pv_w with _ | p
    · rw [hp] at hcond; simp at hcond
    · rw [hp] at hcond
      simp only [Bool.and_eq_true, decide_eq_true_eq, Bool.not_eq_true] at hcond
      exact ⟨p, rfl, hcond.1.2, hcond.2.1, hcond.2.2⟩
  · rintro ⟨hmem, p, hp, hgt, hlo, hhi⟩
    refine ⟨hmem, ?_⟩
    rw [hp]
    simp only [Bool.and_eq_true, decide_eq_true_eq, Bool.not_eq_true]
    exact ⟨⟨by simpa using (by positivity : (0:ℚ) < p).ne', hgt⟩, hlo, hhi⟩

/-- Witness for pv_significant_characterization at a concrete sample. -/
theorem pv_significant_characterization_witness :
    (⟨9, some 150⟩ : ASample) ∈ analyze_pv_significant [⟨9, some 150⟩] ↔
      (⟨9, some 150⟩ : ASample) ∈ [(⟨9, some 150⟩ : ASample)] ∧
        ∃ p, (some (150:ℚ)) = some p ∧ 100 < p ∧ 6 ≤ 9 ∧ 9 ≤ 20 :=
  pv_significant_characterization [⟨9, some 150⟩] ⟨9, some 150⟩

/-- Whether an hour lies in the night window of _detect_pv_night_production:
range(22, 24) together with range(0, 6). -/
def nightHour (h : ℕ) : Bool :=
  (decide (22 ≤ h) && decide (h < 24)) || decide (h < 6)

/-- The night PV samples of _detect_pv_night_production (lines 215-246):
pv_w truthy and above 100 W, at a night hour. -/
def nightPvSamples (samples : List ASample) : List ASample :=
  samples.filter (fun s =>
    match s.pv_w with
    | some p => (!(p = 0) && decide (100 < p)) && nightHour s.hour
    | none => false)

/-- The integrated night PV energy, in kWh (interval_minutes = 5). -/
def nightProductionKwh (samples : List ASample) : ℚ :=
  calculate_energy_from_power (fun s => s.pv_w) (nightPvSamples samples) 5

/-- _detect_pv_night_production: when the night samples are non-empty
and their integrated energy exceeds 0.5 kWh, emits exactly one
pv_night_production_anomaly of medium severity (the emitted record also
carries the first night timestamp, the rounded kWh, the sample count
and the maximal night power, none of which the claims consult).
true stands for the single emitted anomaly. -/
def detect_pv_night_production (samples : List ASample) : List Unit :=
  let night := nightPvSamples samples
  if night.isEmpty then []
  else if 1/2 < nightProductionKwh samples then [()] else []

lemma nightProductionKwh_nonneg_aux (l : List ASample) (a : ℚ) (ha : 0 ≤ a) :
    0 ≤ l.foldl (fun acc s =>
      match s.pv_w with
      | some p => acc + |p| * ((5:ℚ) / 60)
      | none => acc) a := by
  induction l generalizing a with
  | nil => simpa using ha
  | cons s rest ih =>
    rcases hp : s.pv_w with _ | p <;> simp only [List.foldl_cons, hp]
    · exact ih a ha
    · exact ih _ (by positivity)

/-- C8: the night-production anomaly is emitted exactly once when the
integrated night energy of the above-100 W night samples exceeds
0.5 kWh, and never otherwise. -/
theorem pv_night_anomaly_characterization (samples : List ASample) :
    detect_pv_night_production samples =
      (if 1/2 < nightProductionKwh samples then [()] else []) ∧
    (detect_pv_night_production samples).length =
      (if 1/2 < nightProductionKwh samples then 1 else 0) := by
  have key : detect_pv_night_production samples =
      (if 1/2 < nightProductionKwh samples then [()] else []) := by
    unfold detect_pv_night_production
    by_cases h : (nightPvSamples samples).isEmpty
    · rw [if_pos h]
      have hzero : nightProductionKwh samples = 0 := by
        unfold nightProductionKwh calculate_energy_from_power
        rw [List.isEmpty_iff.mp h]
        norm_num
      rw [hzero]
      norm_num
    · rw [if_neg h]
  refine ⟨key, ?_⟩
  rw [key]
  by_cases h : 1/2 < nightProductionKwh samples
  · rw [if_pos h, if_pos h]; rfl
  · rw [if_neg h, if_neg h]; rfl

/-! Statistical anomaly detection (_detect_anomalies, daily_analyzer.py
lines 552-643).  The detector operates on the 5-minute-aggregated
series; for one power channel that series is a list of optional values
(None when the aggregated dict lacks the field).  The float standard
deviation is modelled by the exact real square root. -/

/-- The four power channels scanned for peaks. -/
inductive PowerField
  | pv_w
  | battery_w
  | grid_w
  | load_w
deriving DecidableEq, Repr

/-- Anomaly severity. -/
inductive Severity
  | high
  | medium
deriving DecidableEq, Repr

/-- The per-channel sigma multiplier k. -/
def sigmaK : PowerField → ℚ
  | .pv_w => 4
  | .grid_w => 3.5
  | .load_w => 3.5
  | .battery_w => 3

/-- The per-channel minimum threshold (floor), in watts. -/
def minThreshold : PowerField → ℚ
  | .pv_w => 500
  | .grid_w => 500
  | .load_w => 800
  | .battery_w => 300

/-- Arithmetic mean of a list of rationals. -/
def meanOf (xs : List ℚ) : ℚ := xs.sum / (xs.length : ℚ)

/-- Population variance, as the code computes it. -/
def varianceOf (xs : List ℚ) : ℚ :=
  ((xs.map (fun x => (x - meanOf xs) ^ 2)).sum) / (xs.length : ℚ)

/-- Standard deviation: square root of the variance. -/
noncomputable def stdDevOf (xs : List ℚ) : ℝ :=
  Real.sqrt ((varianceOf xs : ℝ))

/-- The non-null values of the aggregated series for the channel. -/
def valuesOf (aggs : List (Option ℚ)) : List ℚ := aggs.filterMap id

/-- The outlier pre-filter: values with magnitude below 10 kW. -/
def filteredOf (aggs : List (Option ℚ)) : List ℚ :=
  (valuesOf aggs).filter (fun v => |v| < 10000)

/-- The flagging threshold: the statistical threshold mean + k * sigma
computed over the pre-filtered values, floored at the channel minimum. -/
noncomputable def channelThreshold (f : PowerField)
    (aggs : List (Option ℚ)) : ℝ :=
  max ((meanOf (filteredOf aggs) : ℝ) +
      (sigmaK f : ℝ) * stdDevOf (filteredOf aggs))
    ((minThreshold f : ℝ))

/-- Severity of a flagged value: high beyond mean + 5 * sigma of the
pre-filtered values, else medium (the severity rule is the same for
every channel). -/
noncomputable def severityOf (aggs : List (Option ℚ))
    (v : ℚ) : Severity :=
  if (v : ℝ) > (meanOf (filteredOf aggs) : ℝ) +
      5 * stdDevOf (filteredOf aggs)
  then Severity.high else Severity.medium

/-- The per-channel power-peak scan of _detect_anomalies: skip the
channel when there are no values, no pre-filtered values, or (PV only)
no pre-filtered value above 100 W; otherwise flag every aggregated
sample whose value (0 when the field is absent) exceeds the threshold,
and grade it.  The emitted record also carries the timestamp and the
kW-scaled value and threshold, which the claims do not consult. -/
noncomputable def detect_power_peaks (f : PowerField)
    (aggs : List (Option ℚ)) : List (ℚ × Severity) :=
  if valuesOf aggs = [] then []
  else if filteredOf aggs = [] then []
  else if f = PowerField.pv_w ∧
      (filteredOf aggs).filter (fun u => decide (100 < u)) = [] then []
  else
    (aggs.filter (fun s =>
      decide (((s.getD 0 : ℚ) : ℝ) > channelThreshold f aggs))).map
      (fun s => (s.getD 0, severityOf aggs (s.getD 0)))

lemma minThreshold_ge (f : PowerField) : (300 : ℚ) ≤ minThreshold f := by
  cases f <;> norm_num [minThreshold]

/-- C5 amended: a sample of the aggregated series is flagged, with the
stated severity, exactly when the channel passed its emptiness gates
(for PV: some pre-filtered value exceeds 100 W) and the value exceeds
max of the statistical threshold and the floor, where mean and sigma
are always those of the magnitude-filtered values, not further
restricted for PV; severity is high beyond mean + 5 sigma. -/
theorem detect_power_peaks_characterization (f : PowerField)
    (aggs : List (Option ℚ)) (v : ℚ) (sev : Severity) :
    (v, sev) ∈ detect_power_peaks f aggs ↔
      (some v ∈ aggs ∧ filteredOf aggs ≠ [] ∧
        (f = PowerField.pv_w →
          (filteredOf aggs).filter (fun u => decide (100 < u)) ≠ []) ∧
        (v : ℝ) > channelThreshold f aggs ∧
        sev = severityOf aggs v) := by
  unfold detect_power_peaks
  constructor
  · intro h
    split_ifs at h with h1 h2 h3
    · simp at h
    · simp at h
    · simp at h
    · rw [List.mem_map] at h
      obtain ⟨s, hs, heq⟩ := h
      rw [List.mem_filter] at hs
      have hgt : ((s.getD 0 : ℚ) : ℝ) > channelThreshold f aggs :=
        of_decide_eq_true hs.2
      have hthr : ((minThreshold f : ℚ) : ℝ) ≤ channelThreshold f aggs :=
        le_max_right _ _
      have h300 : (300 : ℝ) ≤ channelThreshold f aggs := by
        refine le_trans ?_ hthr
        exact_mod_cast minThreshold_ge f
      rcases hsome : s with _ | u
      · rw [hsome] at hgt
        simp only [Option.getD_none, Rat.cast_zero] at hgt
        linarith
      · rw [hsome] at hs heq
        simp only [Option.getD_some] at heq
        obtain ⟨hv, hsev⟩ := Prod.mk.injEq .. ▸ heq
        refine ⟨hv ▸ hs.1, ?_, ?_, ?_, ?_⟩
        · intro hempty
          rw [hempty] at h2
          exact h2 rfl
        · intro hf
          intro hempty
          exact h3 ⟨hf, hempty⟩
        · rw [hsome] at hgt
          simpa [hv] using hgt
        · rw [← hv, ← hsev]
  · rintro ⟨hmem, hfil, hpv, hgt, hsev⟩
    have h1 : valuesOf aggs ≠ [] := by
      intro hv
      have : v ∈ valuesOf aggs := List.mem_filterMap.mpr ⟨some v, hmem, rfl⟩
      rw [hv] at this
      simp at this
    rw [if_neg h1, if_neg hfil, if_neg (by
      rintro ⟨hf, hempty⟩
      exact hpv hf hempty)]
    rw [List.mem_map]
    refine ⟨some v, ?_, ?_⟩
    · rw [List.mem_filter]
      refine ⟨hmem, decide_eq_true ?_⟩
      simpa using hgt
    · simp [hsev]

/-- Modelled from the spec: the PV flagging threshold as the
specification words it, with the mean and standard deviation computed
over the magnitude-filtered values additionally restricted to samples
above 100 W (the code does not apply this restriction to the
statistics). -/
noncomputable def specPvThreshold (aggs : List (Option ℚ)) : ℝ :=
  max ((meanOf ((filteredOf aggs).filter (fun u => decide (100 < u))) : ℝ) +
      (sigmaK PowerField.pv_w : ℝ) *
        stdDevOf ((filteredOf aggs).filter (fun u => decide (100 < u))))
    ((minThreshold PowerField.pv_w : ℝ))

/-- A flat aggregated PV series with one 600 W spike: 25 zero-valued
five-minute intervals followed by one 600 W interval. -/
def pvSeriesCE : List (Option ℚ) :=
  List.replicate 25 (some 0) ++ [some 600]

lemma filter_replicate_false {α : Type} (p : α → Bool) (a : α) (n : ℕ)
    (h : p a = false) : (List.replicate n a).filter p = [] := by
  induction n with
  | zero => rfl
  | succ m ih => simp [List.replicate_succ, List.filter_cons, h, ih]

lemma pvSeriesCE_filtered : filteredOf pvSeriesCE =
    List.replicate 25 (0 : ℚ) ++ [600] := by decide

lemma mean_flat_spike : meanOf (List.replicate 25 (0 : ℚ) ++ [600]) = 300 / 13 := by
  unfold meanOf
  simp only [List.sum_append, List.sum_replicate, smul_zero, List.sum_cons,
    List.sum_nil, List.length_append, List.length_replicate, List.length_cons,
    List.length_nil]
  norm_num

lemma pvSeriesCE_mean : meanOf (filteredOf pvSeriesCE) = 300 / 13 := by
  rw [pvSeriesCE_filtered]
  exact mean_flat_spike

lemma pvSeriesCE_variance :
    varianceOf (filteredOf pvSeriesCE) = 2250000 / 169 := by
  rw [pvSeriesCE_filtered]
  unfold varianceOf
  rw [mean_flat_spike]
  simp only [List.map_append, List.map_replicate, List.map_cons, List.map_nil,
    List.sum_append, List.sum_replicate, List.sum_cons, List.sum_nil,
    List.length_append, List.length_replicate, List.length_cons,
    List.length_nil, smul_eq_mul]
  norm_num

lemma pvSeriesCE_std : stdDevOf (filteredOf pvSeriesCE) = 1500 / 13 := by
  unfold stdDevOf
  rw [pvSeriesCE_variance, Real.sqrt_eq_cases]
  left
  constructor
  · push_cast
    norm_num
  · norm_num

lemma pvSeriesCE_threshold :
    channelThreshold PowerField.pv_w pvSeriesCE = 500 := by
  unfold channelThreshold
  rw [pvSeriesCE_mean, pvSeriesCE_std]
  rw [max_eq_right]
  · norm_num [minThreshold]
  · push_cast
    norm_num [sigmaK, minThreshold]

lemma pvSeriesCE_severity : severityOf pvSeriesCE 600 = Severity.medium := by
  unfold severityOf
  rw [pvSeriesCE_mean, pvSeriesCE_std, if_neg]
  push_cast
  norm_num

lemma pvSeriesCE_detect :
    detect_power_peaks PowerField.pv_w pvSeriesCE = [(600, Severity.medium)] := by
  unfold detect_power_peaks
  rw [if_neg (by decide), if_neg (by decide), if_neg (by decide)]
  have hcong : pvSeriesCE.filter (fun s =>
      decide (((s.getD 0 : ℚ) : ℝ) > channelThreshold PowerField.pv_w pvSeriesCE)) =
      pvSeriesCE.filter (fun s =>
      decide (((s.getD 0 : ℚ) : ℝ) > (500 : ℝ))) := by
    apply List.filter_congr
    intro s _
    rw [pvSeriesCE_threshold]
  rw [hcong]
  have hsplit : pvSeriesCE.filter (fun s =>
      decide (((s.getD 0 : ℚ) : ℝ) > (500 : ℝ))) = [some 600] := by
    unfold pvSeriesCE
    rw [List.filter_append]
    rw [filter_replicate_false _ _ _ (by
      simp only [Option.getD_some]
      rw [decide_eq_false_iff_not]
      push_cast
      norm_num)]
    rw [List.nil_append, List.filter_cons]
    rw [if_pos (by
      simp only [Option.getD_some]
      rw [decide_eq_true_eq]
      push_cast
      norm_num)]
    rfl
  rw [hsplit]
  simp only [List.map_cons, List.map_nil, Option.getD_some]
  rw [pvSeriesCE_severity]

/-- C5 counterexample: on the flat series with a single 600 W spike the
code flags the spike (medium), although under the thresholds as the
claim states them -- mean and sigma restricted, for PV, to samples
above 100 W -- the spike does not exceed the threshold, so the claimed
equivalence fails. -/
theorem detect_power_peaks_pv_restriction_mismatch :
    (600, Severity.medium) ∈ detect_power_peaks PowerField.pv_w pvSeriesCE ∧
    ¬ ((600 : ℝ) > specPvThreshold pvSeriesCE) := by
  constructor
  · rw [pvSeriesCE_detect]
    exact List.mem_singleton.mpr rfl
  · unfold specPvThreshold
    have hrs : (filteredOf pvSeriesCE).filter (fun u => decide (100 < u)) =
        [600] := by decide
    rw [hrs]
    have hm : meanOf [(600 : ℚ)] = 600 := by
      unfold meanOf
      norm_num
    have hv : varianceOf [(600 : ℚ)] = 0 := by
      unfold varianceOf
      rw [hm]
      norm_num
    have hs : stdDevOf [(600 : ℚ)] = 0 := by
      unfold stdDevOf
      rw [hv]
      simp
    rw [hm, hs]
    rw [max_eq_left (by push_cast; norm_num [sigmaK, minThreshold])]
    push_cast
    norm_num

/-- Witness instantiating detect_power_peaks_characterization at a
concrete channel, series, value and severity. -/
theorem detect_power_peaks_characterization_witness :
    ((600 : ℚ), Severity.medium) ∈ detect_power_peaks PowerField.pv_w pvSeriesCE ↔
      (some (600 : ℚ) ∈ pvSeriesCE ∧ filteredOf pvSeriesCE ≠ [] ∧
        (PowerField.pv_w = PowerField.pv_w →
          (filteredOf pvSeriesCE).filter (fun u => decide (100 < u)) ≠ []) ∧
        ((600 : ℚ) : ℝ) > channelThreshold PowerField.pv_w pvSeriesCE ∧
        Severity.medium = severityOf pvSeriesCE 600) :=
  detect_power_peaks_characterization PowerField.pv_w pvSeriesCE 600
    Severity.medium

end DailyAnalyzer
